import Mathlib

/-!
Verification of the amp-classif prediction client (`classif/prediction.py`).

The data model and operations below are a shallow embedding of the source.
Functions of the repository that are not present under `src/` (the helpers in
`classif/utils.py` and the constants in `classif/config.py`) are modelled from
the specification; each such definition carries a doc comment starting with
`Modelled from the spec:`.
-/

/-- A FASTA record: identifier plus sequence string (spec section 3,
`SequenceRecord`; produced by the external FASTA reader `Bio.SeqIO.parse`). -/
structure FastaRecord where
  id : String
  seq : String
deriving DecidableEq, Repr

/-- Serialization of one record as done by `item.format("fasta")` for
records without a description: a header line `>id` followed by the sequence. -/
def formatFasta (r : FastaRecord) : String :=
  ">" ++ r.id ++ "\n" ++ r.seq ++ "\n"

/-- Serialized size of a chunk: the sum of the sizes of its records. -/
def chunkSizeSum (c : List String) : Nat :=
  (c.map String.length).sum

/-- Greedy accumulation loop of the chunker: `cur` is the open chunk,
`curSize` its serialized size. -/
def chunksAux (limit : Nat) (cur : List String) (curSize : Nat) : List String → List (List String)
  | [] => [cur]
  | r :: rs =>
    if curSize + r.length ≤ limit then
      chunksAux limit (cur ++ [r]) (curSize + r.length) rs
    else
      cur :: chunksAux limit [r] r.length rs

/-- Modelled from the spec: `utils.split_into_chunks` is not under `src/`
(only its callers `predict_dbaasp` and `predict_dbaasp_genome` are).  Spec
section 4.1: greedily accumulate records into the current chunk while the
chunk's serialized size stays within `limit`; when adding the next record
would exceed `limit`, close the current chunk and start a new one; a single
record whose own size exceeds `limit` becomes its own chunk; empty input
produces an empty sequence of chunks. -/
def splitIntoChunks (records : List String) (limit : Nat) : List (List String) :=
  match records with
  | [] => []
  | r :: rs => chunksAux limit [r] r.length rs

/-- Python `str.replace(pat, rep)` on character lists: replaces every
non-overlapping occurrence of `pat`, scanning left to right.  (The Python
empty-pattern behaviour is never exercised by the source, which replaces
`".fasta"` and `" "` only.) -/
def replaceCharsGo (pat rep : List Char) : Nat → List Char → List Char
  | _, [] => []
  | 0, l => l
  | fuel + 1, c :: cs =>
    if pat.isPrefixOf (c :: cs) && !pat.isEmpty then
      rep ++ replaceCharsGo pat rep fuel ((c :: cs).drop pat.length)
    else
      c :: replaceCharsGo pat rep fuel cs

/-- Entry point of `replaceCharsGo` with enough fuel to scan the whole
input (each step consumes at least one character). -/
def replaceChars (pat rep l : List Char) : List Char :=
  replaceCharsGo pat rep l.length l

/-- Python `s.replace(pat, rep)` lifted to `String`. -/
def strReplace (s pat rep : String) : String :=
  String.mk (replaceChars pat.data rep.data s.data)

/-- `os.path.basename`: the part of the path after the last slash. -/
def pyBasename (s : String) : String :=
  String.mk ((s.data.reverse.takeWhile (fun c => c != '/')).reverse)

/-- Root part of `os.path.splitext` on a basename: cut at the last dot,
provided some non-dot character precedes it (leading dots never start an
extension). -/
def pySplitextRootChars (l : List Char) : List Char :=
  let afterDot := l.reverse.takeWhile (fun c => c != '.')
  if afterDot.length = l.length then l
  else
    let k := l.length - afterDot.length - 1
    if (l.take k).any (fun c => c != '.') then l.take k else l

/-- `os.path.splitext(s)[0]` lifted to `String`. -/
def pyStem (s : String) : String :=
  String.mk (pySplitextRootChars s.data)

/-- Python code-point comparison of strings (strict less-than). -/
def charsLt : List Char → List Char → Bool
  | _, [] => false
  | [], _ :: _ => true
  | c :: cs, d :: ds =>
    if c.val < d.val then true else if d.val < c.val then false else charsLt cs ds

/-- Python `<` on strings. -/
def pyStrLt (a b : String) : Bool :=
  charsLt a.data b.data

/-- Python `<` on lists of strings (lexicographic). -/
def pyListLt : List String → List String → Bool
  | _, [] => false
  | [], _ :: _ => true
  | x :: xs, y :: ys =>
    if pyStrLt x y then true else if pyStrLt y x then false else pyListLt xs ys

/-- Stable insertion used by `pySorted`: the new element goes after every
element it is not strictly below. -/
def insTo (lt : α → α → Bool) (x : α) : List α → List α
  | [] => [x]
  | y :: ys => if lt x y then x :: y :: ys else y :: insTo lt x ys

/-- Python `sorted`: stable ascending sort. -/
def pySorted (lt : α → α → Bool) (l : List α) : List α :=
  l.foldl (fun acc x => insTo lt x acc) []

/-- Sequential effectful map: each element is processed in order and the
first raised exception aborts the run (the Python for-loop/generator
semantics of the source). -/
def mapMExcept (f : α → Except String β) : List α → Except String (List β)
  | [] => Except.ok []
  | a :: l => do
    let b ← f a
    let bs ← mapMExcept f l
    Except.ok (b :: bs)

/-- Sequential effectful fold, first exception aborts. -/
def foldlMExcept (f : β → α → Except String β) (init : β) : List α → Except String β
  | [] => Except.ok init
  | a :: l => do
    let b ← f init a
    foldlMExcept f b l

/-- A tabular result (`pandas.DataFrame`): a header of column names and a
list of rows. -/
structure Df where
  header : List String
  rows : List (List String)
deriving DecidableEq, Repr

deriving instance DecidableEq for Except

/-- `pd.concat(dfs, axis="rows", ignore_index=True)` as used by the source:
all frames of one run share a schema, so rows are concatenated under the
first frame's header.  An empty input raises
`ValueError: No objects to concatenate`. -/
def pdConcat (dfs : List Df) : Except String Df :=
  match dfs with
  | [] => Except.error "No objects to concatenate"
  | d :: ds => Except.ok ⟨d.header, d.rows ++ (ds.map Df.rows).flatten⟩

/-- `df[name] = vals`: pandas raises when the value list's length differs
from the row count; otherwise the column is overwritten when present and
appended when absent. -/
def dfSetColumn (df : Df) (name : String) (vals : List String) : Except String Df :=
  if vals.length ≠ df.rows.length then
    Except.error "ValueError: Length of values does not match length of index"
  else if df.header.contains name then
    let j := df.header.findIdx (fun h => h == name)
    Except.ok ⟨df.header, (df.rows.zip vals).map (fun p => p.1.set j p.2)⟩
  else
    Except.ok ⟨df.header ++ [name], (df.rows.zip vals).map (fun p => p.1 ++ [p.2])⟩

/-- Read one column of a frame by name. -/
def dfGetColumn (df : Df) (name : String) : List String :=
  let j := df.header.findIdx (fun h => h == name)
  df.rows.map (fun r => r.getD j "")

/-- `pd.DataFrame(response[1:], columns=response[0])`: the first row of the
JSON array-of-arrays is the header; a ragged body or an empty array is a
hard error. -/
def dfFromTable (t : List (List String)) : Except String Df :=
  match t with
  | [] => Except.error "IndexError: list index out of range"
  | hdr :: rest =>
    if rest.all (fun r => r.length == hdr.length) then Except.ok ⟨hdr, rest⟩
    else Except.error "ValueError: columns mismatch"

/-- One HTTP response as observed by the DBAASP adapters: the status code
and the result of `response.json()` (`none` when the body is not JSON, in
which case `.json()` raises). -/
structure HttpResponse where
  status : Nat
  jsonBody : Option (List (List String))
deriving DecidableEq, Repr

/-- The response carries a parseable, non-empty, rectangular JSON table. -/
def wfTable (resp : HttpResponse) : Bool :=
  match resp.jsonBody with
  | some (hdr :: rest) => rest.all (fun r => r.length == hdr.length)
  | _ => false

/-- Number of data rows of the response's JSON table. -/
def respRowCount (resp : HttpResponse) : Nat :=
  match resp.jsonBody with
  | some (_ :: rest) => rest.length
  | _ => 0

/-- Header row of the response's JSON table. -/
def respHeader (resp : HttpResponse) : List String :=
  match resp.jsonBody with
  | some (hdr :: _) => hdr
  | _ => []

/-- Data rows of the response's JSON table. -/
def respRows (resp : HttpResponse) : List (List String) :=
  match resp.jsonBody with
  | some (_ :: rest) => rest
  | _ => []

/-- The raw frame built from the response's JSON table
(`pd.DataFrame(response[1:], columns=response[0])`). -/
def respDf (resp : HttpResponse) : Df :=
  ⟨respHeader resp, respRows resp⟩

/-- Modelled from the spec: `utils.clean_dbaasp_preds` is not under `src/`.
Spec section 4.3: the normalizer renames raw columns to canonical names and
is shape-preserving over well-formed tables; the canonical identifier column
of this codebase is `"id"` (see the STM path in the source, line 183).  The
raw remote schema is external, so the rename is modelled positionally on the
identifier column. -/
def dbaaspCanonicalHeader : List String → List String
  | [] => []
  | _ :: rest => "id" :: rest

/-- Modelled from the spec: `utils.clean_dbaasp_preds` (see
`dbaaspCanonicalHeader`); row data is preserved. -/
def cleanDbaaspPreds (raw : Df) (_strain : String) : Df :=
  ⟨dbaaspCanonicalHeader raw.header, raw.rows⟩

/-- Modelled from the spec: `utils.clean_dbaasp_genome_preds` is not under
`src/`; like `cleanDbaaspPreds` it is a shape-preserving column rename. -/
def cleanDbaaspGenomePreds (raw : Df) (_strain : String) : Df :=
  ⟨dbaaspCanonicalHeader raw.header, raw.rows⟩

/-- Modelled from the spec: `utils.clean_stm_preds` is not under `src/`; a
shape-preserving normalization of the joined id/sequence/score table. -/
def cleanStmPreds (raw : Df) : Df :=
  ⟨raw.header, raw.rows⟩

/-- Modelled from the spec: `utils.clean_campr3_preds` is not under `src/`;
a shape-preserving normalization of the parsed HTML table. -/
def cleanCampr3Preds (raw : Df) : Df :=
  ⟨raw.header, raw.rows⟩

/-- `get_dbaasp_predictions`, lines 131-143 of the source, for one already
received response: `response.json()` is evaluated before the status test
(raising on a non-JSON body); a 200 status yields the normalized table, any
other status yields `None`. -/
def getDbaaspPredictions (resp : HttpResponse) (strain : String) : Except String (Option Df) :=
  match resp.jsonBody with
  | none => Except.error "JSONDecodeError"
  | some t =>
    if resp.status == 200 then
      match dfFromTable t with
      | Except.ok raw => Except.ok (some (cleanDbaaspPreds raw strain))
      | Except.error e => Except.error e
    else Except.ok none

/-- `get_dbaasp_genome_predictions`, lines 146-166, same response handling
as `getDbaaspPredictions`. -/
def getDbaaspGenomePredictions (resp : HttpResponse) (strain : String) : Except String (Option Df) :=
  match resp.jsonBody with
  | none => Except.error "JSONDecodeError"
  | some t =>
    if resp.status == 200 then
      match dfFromTable t with
      | Except.ok raw => Except.ok (some (cleanDbaaspGenomePreds raw strain))
      | Except.error e => Except.error e
    else Except.ok none

/-- The per-chunk outcome of `getDbaaspPredictions` on a parseable,
well-formed response: the normalized table on success status, `none`
otherwise. -/
def chunkResult (resp : HttpResponse) (strain : String) : Option Df :=
  if resp.status == 200 then
    match resp.jsonBody with
    | some (hdr :: rest) => some (cleanDbaaspPreds ⟨hdr, rest⟩ strain)
    | _ => none
  else none

/-- Lines 33-34 of the source: replace each record's identifier by its
position, `item.id = str(i)`. -/
def reindex (records : List FastaRecord) : List FastaRecord :=
  records.enum.map (fun p => { p.2 with id := toString p.1 })

/-- The chunk payloads submitted by `predict_dbaasp` (lines 30-37): records
are re-indexed when the strain is empty, formatted, chunked, and each chunk
is joined into one request payload. -/
def dbaaspChunks (records : List FastaRecord) (strain : String) (chunkSize : Nat) : List String :=
  let payload := if strain.isEmpty then reindex records else records
  (splitIntoChunks (payload.map formatFasta) chunkSize).map String.join

/-- Output filename of `predict_ampscanner` (lines 23-24). -/
def ampscannerOutfile (inputPath : String) : String :=
  pyStem (pyBasename inputPath) ++ "_pred_ampscannerv2.csv"

/-- Output filename of `predict_dbaasp` (lines 39-41). -/
def dbaaspOutfile (inputPath strain : String) : String :=
  pyStem (pyBasename inputPath) ++ "_pred_dbaasp_"
    ++ (if strain.isEmpty then "general" else strReplace strain " " "_") ++ ".csv"

/-- Output filename of `predict_dbaasp_genome` (line 56): built with
`str.replace(".fasta", ...)` on the basename. -/
def dbaaspGenomeOutfile (inputPath strain : String) : String :=
  strReplace (pyBasename inputPath) ".fasta"
    ("_pred_dbaasp_genome_" ++ strReplace strain " " "_" ++ ".csv")

/-- Output filename of `predict_stm` (line 79). -/
def stmOutfile (inputPath : String) : String :=
  strReplace (pyBasename inputPath) ".fasta" "_pred_stm.csv"

/-- Output filename of one `predict_campr3` result (line 68); `algoKey` is
the dictionary key `campr3_<algo>`. -/
def campr3Outfile (inputPath algoKey : String) : String :=
  strReplace (pyBasename inputPath) ".fasta" ("_pred_" ++ algoKey ++ ".csv")

/-- `predict_dbaasp` (lines 29-47).  `serve` is the external HTTP transport,
mapping a request payload to the response.  The Python local variable
`names` is only bound when the strain is empty; referring to it otherwise is
a `NameError`.  The returned pair is the written file: its name and
contents. -/
def predictDbaasp (serve : String → HttpResponse) (records : List FastaRecord)
    (strain : String) (inputPath : String) (chunkSize : Nat) : Except String (String × Df) := do
  let names : Option (List String) :=
    if strain.isEmpty then some (records.map FastaRecord.id) else none
  let partials ← mapMExcept (fun c => getDbaaspPredictions (serve c) strain)
      (dbaaspChunks records strain chunkSize)
  let result ← pdConcat (partials.filterMap id)
  let outfile := dbaaspOutfile inputPath strain
  let result ←
    if (if strain.isEmpty then "general" else strReplace strain " " "_") == "general" then
      match names with
      | some ns => dfSetColumn result "id" ns
      | none => Except.error "NameError: name names is not defined"
    else Except.ok result
  Except.ok (outfile, result)

/-- The chunk payloads submitted by `predict_dbaasp_genome` (lines 52-54):
the chunker's output is passed through Python `sorted` before joining. -/
def dbaaspGenomeChunks (records : List FastaRecord) (chunkSize : Nat) : List String :=
  (pySorted pyListLt (splitIntoChunks (records.map formatFasta) chunkSize)).map String.join

/-- `predict_dbaasp_genome` (lines 50-61). -/
def predictDbaaspGenome (serve : String → HttpResponse) (records : List FastaRecord)
    (strain : String) (inputPath : String) (chunkSize : Nat) : Except String (String × Df) := do
  let partials ← mapMExcept (fun c => getDbaaspGenomePredictions (serve c) strain)
      (dbaaspGenomeChunks records chunkSize)
  let result ← pdConcat (partials.filterMap id)
  Except.ok (dbaaspGenomeOutfile inputPath strain, result)

/-- Total number of data rows contributed by the successful chunks of a
`predict_dbaasp` run with empty strain. -/
def dbaaspTotalRows (serve : String → HttpResponse) (records : List FastaRecord)
    (chunkSize : Nat) : Nat :=
  ((dbaaspChunks records "" chunkSize).map
    (fun c => if (serve c).status == 200 then respRowCount (serve c) else 0)).sum

/-- One HTTP response as observed by the STM adapter: the status code and
the first HTML table of the body (`none` when `pd.read_html` finds none, in
which case it raises). -/
structure StmResponse where
  status : Nat
  table0 : Option Df
deriving DecidableEq, Repr

/-- FASTA text parsing (external `Bio.SeqIO.parse`, modelled for
description-free records): a `>` line starts a record whose identifier is
the first word; following non-`>` lines form the sequence. -/
def parseFastaLines : List String → List FastaRecord
  | [] => []
  | l :: ls =>
    if l.startsWith ">" then
      { id := (l.drop 1).takeWhile (fun c => c != ' '),
        seq := String.join (ls.takeWhile (fun s => !s.startsWith ">")) }
        :: parseFastaLines (ls.dropWhile (fun s => !s.startsWith ">"))
    else parseFastaLines ls
termination_by l => l.length
decreasing_by
  · simp only [List.length_cons]
    exact Nat.lt_succ_of_le (List.IsSuffix.length_le (List.dropWhile_suffix _))
  · simp

/-- Parse a FASTA payload string. -/
def parseFasta (s : String) : List FastaRecord :=
  parseFastaLines (s.splitOn "\n")

/-- Lines 180-183 of the source: the id/sequence frame rebuilt from the
submitted payload. -/
def stmInfoDf (payload : String) : Df :=
  ⟨["id", "sequence"], (parseFasta payload).map (fun r => [r.id, r.seq])⟩

/-- `pd.concat([info, response], axis="columns")`: columns side by side,
missing rows padded. -/
def concatColumns (a b : Df) : Df :=
  ⟨a.header ++ b.header,
   (List.range (max a.rows.length b.rows.length)).map
     (fun i => a.rows.getD i (List.replicate a.header.length "")
            ++ b.rows.getD i (List.replicate b.header.length ""))⟩

/-- `get_stm_predictions` (lines 169-185) for one received response: the
body is parsed as an HTML table before the status test (raising when no
table is present); a 200 status yields the normalized joined table, any
other status yields `None`. -/
def getStmPredictions (resp : StmResponse) (payload : String) : Except String (Option Df) :=
  match resp.table0 with
  | none => Except.error "ValueError: No tables found"
  | some t =>
    if resp.status == 200 then
      Except.ok (some (cleanStmPreds (concatColumns (stmInfoDf payload) t)))
    else Except.ok none

/-- One HTTP response as observed by the CAMPR3 adapter: the status code and
the HTML tables of the body (the source reads table index 3). -/
structure HtmlResponse where
  status : Nat
  tables : List Df
deriving DecidableEq, Repr

/-- Python `dict` insertion on an insertion-ordered association list: an
existing key is overwritten in place, a new key is appended. -/
def dictInsert (d : List (String × Option Df)) (k : String) (v : Option Df) :
    List (String × Option Df) :=
  if d.any (fun p => p.1 == k) then
    d.map (fun p => if p.1 == k then (k, v) else p)
  else d ++ [(k, v)]

/-- One iteration of the `get_campr3_predictions` loop (lines 111-127): on
a 200 status the fourth HTML table of the response is parsed and
normalized, otherwise the entry is `None`; the result is stored under the
key `campr3_<algo>`. -/
def campr3Step (serve : String → HtmlResponse) (result : List (String × Option Df))
    (algo : String) : Except String (List (String × Option Df)) := do
  let resp := serve algo
  let df ←
    if resp.status == 200 then
      match resp.tables[3]? with
      | some t => Except.ok (some (cleanCampr3Preds t))
      | none => Except.error "IndexError: list index out of range"
    else Except.ok (none : Option Df)
  Except.ok (dictInsert result ("campr3_" ++ algo) df)

/-- `get_campr3_predictions` (lines 109-128): one request per configured
sub-algorithm, in order.  `serve` maps a sub-algorithm to its response. -/
def getCampr3Predictions (serve : String → HtmlResponse) (payload : String)
    (algos : List String) : Except String (List (String × Option Df)) :=
  foldlMExcept (campr3Step serve) [] algos

/-- The per-algorithm value stored by the CAMPR3 loop. -/
def campr3Entry (serve : String → HtmlResponse) (a : String) : String × Option Df :=
  ("campr3_" ++ a,
   if (serve a).status == 200 then ((serve a).tables[3]?).map cleanCampr3Preds else none)


/-- Line 120 of the source: the multipart boundary, a fixed prefix followed
by the 16 characters drawn by `random.sample`. -/
def campr3Boundary (rand : List Char) : String :=
  "----WebKitFormBoundary" ++ String.mk rand

/-- A possible value of `random.sample(string.ascii_letters + string.digits, 16)`:
16 distinct alphanumeric characters. -/
def validBoundarySample (rand : List Char) : Prop :=
  rand.length = 16 ∧ rand.Nodup ∧ ∀ c ∈ rand, (c.isAlpha = true ∨ c.isDigit = true)

instance (rand : List Char) : Decidable (validBoundarySample rand) := by
  unfold validBoundarySample
  infer_instance

/-- Modelled from the spec: the multipart body built by the external
`requests_toolbelt.MultipartEncoder` — boundary-delimited parts, one per
field, closed by the final boundary. -/
def multipartBody (boundary : String) (fields : List (String × String)) : String :=
  String.join (fields.map (fun f =>
    "--" ++ boundary ++ "\r\nContent-Disposition: form-data; name=\"" ++ f.1
      ++ "\"\r\n\r\n" ++ f.2 ++ "\r\n"))
  ++ "--" ++ boundary ++ "--\r\n"

/-- Lines 114-119 of the source: the form fields of one CAMPR3 request. -/
def campr3RequestFields (payload algo : String) : List (String × String) :=
  [("S1", payload), ("userfile", ""), ("algo[]", algo), ("B1", "Submit")]

/-- Lines 114-122 of the source: the encoded CAMPR3 request body, a function
of the payload, the sub-algorithm and the random boundary sample. -/
def campr3RequestBody (payload algo : String) (rand : List Char) : String :=
  multipartBody (campr3Boundary rand) (campr3RequestFields payload algo)

/-- The 20 standard amino-acid one-letter codes. -/
def aminoAcids : List Char :=
  ['A','C','D','E','F','G','H','I','K','L','M','N','P','Q','R','S','T','V','W','Y']

/-- Modelled from the spec: the per-symbol integer encoding of
`utils.setup_ampscanner` (not under `src/`): one positive code per standard
amino acid, 0 for an unrecognized symbol. -/
def encodeChar (c : Char) : Nat :=
  match aminoAcids.findIdx? (fun a => a == c) with
  | some i => i + 1
  | none => 0

/-- Modelled from the spec: encode a sequence, truncating to the configured
maximum length. -/
def encodeSeq (maxLen : Nat) (s : String) : List Nat :=
  (s.data.take maxLen).map encodeChar

/-- Modelled from the spec: the warning marker attached for sequences that
required truncation or contained unrecognized symbols. -/
def ampWarn (maxLen : Nat) (r : FastaRecord) : String :=
  if decide (maxLen < r.seq.length)
      || (r.seq.data.take maxLen).any (fun c => encodeChar c == 0) then "*" else ""

/-- Modelled from the spec: `utils.setup_ampscanner` is not under `src/`
(only its caller `get_ampscanner_predictions` is).  It returns the encoded
vectors, the warning markers, the identifiers and the sequences, one entry
per input record. -/
def setupAmpscanner (maxLen : Nat) (records : List FastaRecord) :
    List (List Nat) × List String × List String × List String :=
  (records.map (fun r => encodeSeq maxLen r.seq),
   records.map (ampWarn maxLen),
   records.map FastaRecord.id,
   records.map FastaRecord.seq)

/-- `keras.preprocessing.sequence.pad_sequences` (external) on one encoded
vector: left-pad with zeros to the configured maximum length. -/
def padSeq (maxLen : Nat) (xs : List Nat) : List Nat :=
  List.replicate (maxLen - xs.length) 0 ++ xs

/-- `round(x, 4)` on the model probability. -/
def round4 (q : ℚ) : ℚ :=
  (round (q * 10000) : ℤ) / 10000

/-- `get_ampscanner_predictions` (lines 87-106).  The pretrained classifier
is the opaque function `model` from a padded encoded vector to a
probability; the row comprehension of lines 100-103 indexes the parallel
id/warning/sequence lists by the prediction index. -/
def getAmpscannerPredictions (model : List Nat → ℚ) (threshold : ℚ) (maxLen : Nat)
    (records : List FastaRecord) : Df :=
  let s := setupAmpscanner maxLen records
  let xTest := s.1.map (padSeq maxLen)
  let warn := s.2.1
  let ids := s.2.2.1
  let seqs := s.2.2.2
  let preds := xTest.map model
  let rows := (List.range preds.length).map (fun i =>
    [ids.getD i "",
     (if threshold ≤ preds.getD i 0 then "AMP" else "Non-AMP") ++ warn.getD i "",
     toString (round4 (preds.getD i 0)),
     seqs.getD i ""])
  ⟨["SeqID", "Prediction_Class", "Prediction_Probability", "Sequence"], rows⟩

lemma chunksAux_join (limit : Nat) :
    ∀ (rs : List String) (cur : List String) (s : Nat),
      (chunksAux limit cur s rs).flatten = cur ++ rs := by
  intro rs
  induction rs with
  | nil => intro cur s; simp [chunksAux]
  | cons r rs ih =>
    intro cur s
    by_cases h : s + r.length ≤ limit
    · simp only [chunksAux, if_pos h]
      rw [ih]
      simp
    · simp only [chunksAux, if_neg h]
      simp only [List.flatten_cons]
      rw [ih]
      simp

lemma chunksAux_sizes (limit : Nat) :
    ∀ (rs : List String) (cur : List String) (s : Nat),
      s = chunkSizeSum cur →
      (s ≤ limit ∨ cur.length = 1) →
      ∀ c ∈ chunksAux limit cur s rs, chunkSizeSum c ≤ limit ∨ c.length = 1 := by
  intro rs
  induction rs with
  | nil =>
    intro cur s hs hcur c hc
    simp [chunksAux] at hc
    subst hc
    rw [hs] at hcur
    exact hcur
  | cons r rs ih =>
    intro cur s hs hcur c hc
    by_cases h : s + r.length ≤ limit
    · simp only [chunksAux, if_pos h] at hc
      refine ih (cur ++ [r]) (s + r.length) ?_ (Or.inl h) c hc
      simp [chunkSizeSum, hs]
    · simp only [chunksAux, if_neg h] at hc
      rcases List.mem_cons.mp hc with hc | hc
      · subst hc
        rw [hs] at hcur
        exact hcur
      · exact ih [r] r.length (by simp [chunkSizeSum]) (Or.inr rfl) c hc

lemma chunksAux_shape (limit : Nat) :
    ∀ (rs rs' : List String) (cur cur' : List String) (s : Nat),
      rs.map String.length = rs'.map String.length →
      cur.length = cur'.length →
      (chunksAux limit cur s rs).map List.length
        = (chunksAux limit cur' s rs').map List.length := by
  intro rs
  induction rs with
  | nil =>
    intro rs' cur cur' s hmap hcur
    have : rs' = [] := by
      cases rs' with
      | nil => rfl
      | cons a l => simp at hmap
    subst this
    simp [chunksAux, hcur]
  | cons r rs ih =>
    intro rs' cur cur' s hmap hcur
    cases rs' with
    | nil => simp at hmap
    | cons r' rs'' =>
      simp only [List.map_cons, List.cons.injEq] at hmap
      obtain ⟨hlen, htail⟩ := hmap
      by_cases h : s + r.length ≤ limit
      · have h' : s + r'.length ≤ limit := by rw [← hlen]; exact h
        simp only [chunksAux, if_pos h, if_pos h', hlen]
        exact ih rs'' (cur ++ [r]) (cur' ++ [r']) (s + r'.length) htail (by simp [hcur])
      · have h' : ¬ s + r'.length ≤ limit := by rw [← hlen]; exact h
        simp only [chunksAux, if_neg h, if_neg h', List.map_cons, hcur, hlen]
        congr 1
        exact ih rs'' [r] [r'] r'.length htail (by simp)

/-- Claim C1: for every record sequence and every positive byte limit, the
chunker's chunks concatenate back to the original sequence in order; no
chunk's serialized size exceeds the limit unless it is a single oversized
record; chunk boundaries are a function of the input order and sizes only;
and empty input yields an empty chunk list. -/
theorem chunker_splits_correctly (rs : List String) (limit : Nat) (hpos : 0 < limit) :
    (splitIntoChunks rs limit).flatten = rs
    ∧ (∀ c ∈ splitIntoChunks rs limit,
        chunkSizeSum c ≤ limit ∨ (c.length = 1 ∧ limit < chunkSizeSum c))
    ∧ (∀ rs', rs.map String.length = rs'.map String.length →
        (splitIntoChunks rs limit).map List.length
          = (splitIntoChunks rs' limit).map List.length)
    ∧ splitIntoChunks [] limit = [] := by
  refine ⟨?_, ?_, ?_, rfl⟩
  · cases rs with
    | nil => simp [splitIntoChunks]
    | cons r rs => simp [splitIntoChunks, chunksAux_join]
  · intro c hc
    cases rs with
    | nil => simp [splitIntoChunks] at hc
    | cons r rs =>
      simp only [splitIntoChunks] at hc
      have := chunksAux_sizes limit rs [r] r.length (by simp [chunkSizeSum]) (Or.inr rfl) c hc
      rcases this with h | h
      · exact Or.inl h
      · by_cases hsz : chunkSizeSum c ≤ limit
        · exact Or.inl hsz
        · exact Or.inr ⟨h, Nat.lt_of_not_le hsz⟩
  · intro rs' hmap
    cases rs with
    | nil =>
      have : rs' = [] := by
        cases rs' with
        | nil => rfl
        | cons a l => simp at hmap
      subst this; rfl
    | cons r rs =>
      cases rs' with
      | nil => simp at hmap
      | cons r' rs'' =>
        simp only [List.map_cons, List.cons.injEq] at hmap
        obtain ⟨hlen, htail⟩ := hmap
        simp only [splitIntoChunks]
        rw [hlen]
        exact chunksAux_shape limit rs rs'' [r] [r'] r'.length htail (by simp)

/-- Witness for C1 at a concrete input. -/
theorem chunker_splits_correctly_witness :
    0 < 9 ∧ (splitIntoChunks [">a\nAAAA\n", ">b\nCC\n", ">c\nDD\n"] 9).flatten
      = [">a\nAAAA\n", ">b\nCC\n", ">c\nDD\n"] :=
  ⟨by decide, (chunker_splits_correctly [">a\nAAAA\n", ">b\nCC\n", ">c\nDD\n"] 9 (by decide)).1⟩

/-- Claim C2 (failing evaluation): `predict_dbaasp_genome` passes the
chunker's output through `sorted` (line 54), so its chunks are submitted in
lexicographically sorted order, not in the order the chunker produced them:
on two records whose chunks sort in reverse, the submission order differs
from the chunker order. -/
theorem genome_chunks_resorted :
    dbaaspGenomeChunks [⟨"b", "CCCC"⟩, ⟨"a", "AAAA"⟩] 9 = [">a\nAAAA\n", ">b\nCCCC\n"]
    ∧ (splitIntoChunks ([FastaRecord.mk "b" "CCCC", ⟨"a", "AAAA"⟩].map formatFasta) 9).map
        String.join = [">b\nCCCC\n", ">a\nAAAA\n"]
    ∧ dbaaspGenomeChunks [⟨"b", "CCCC"⟩, ⟨"a", "AAAA"⟩] 9
        ≠ (splitIntoChunks ([FastaRecord.mk "b" "CCCC", ⟨"a", "AAAA"⟩].map formatFasta) 9).map
            String.join := by
  refine ⟨by decide, by decide, by decide⟩

/-- Claim C5 (failing evaluation): when every chunk's response has a
non-success status, the per-chunk results are all `None`, and
`pd.concat` over the resulting empty sequence raises
`ValueError: No objects to concatenate` — in both `predict_dbaasp` and
`predict_dbaasp_genome` — instead of an empty output file being written. -/
theorem all_chunks_failed_raises :
    predictDbaasp (fun _ => ⟨500, some [["c1"]]⟩) [⟨"a", "AA"⟩, ⟨"b", "BB"⟩]
        "Escherichia coli ATCC 25922" "in.fasta" 8
      = Except.error "No objects to concatenate"
    ∧ predictDbaaspGenome (fun _ => ⟨500, some [["c1"]]⟩) [⟨"a", "AA"⟩, ⟨"b", "BB"⟩]
        "Escherichia coli ATCC 25922" "in.fasta" 8
      = Except.error "No objects to concatenate" := by
  refine ⟨by decide, by decide⟩

/-- Claim C3 counterexample: the DBAASP adapter evaluates `response.json()`
before testing the status (line 140), and the STM adapter parses the HTML
body before testing the status (line 177); a non-success response whose body
does not parse therefore raises instead of yielding `None`. -/
theorem nonsuccess_unparseable_raises :
    getDbaaspPredictions ⟨404, none⟩ "Escherichia coli ATCC 25922"
        = Except.error "JSONDecodeError"
    ∧ getDbaaspPredictions ⟨404, none⟩ "Escherichia coli ATCC 25922" ≠ Except.ok none
    ∧ getStmPredictions ⟨404, none⟩ ">a\nAA\n" = Except.error "ValueError: No tables found" := by
  refine ⟨by decide, by decide, by decide⟩

/-- Claim C4 counterexample: supplying the non-empty strain `"general"`
does trigger the restoration branch of `predict_dbaasp` (line 42), which
then reads the unbound local variable `names` — a `NameError` — even though
no index substitution took place. -/
theorem strain_general_restoration_crash :
    predictDbaasp (fun _ => ⟨200, some [["c1"], ["x"]]⟩) [⟨"a", "AA"⟩] "general" "in.fasta" 100
      = Except.error "NameError: name names is not defined" := by
  decide

/-- Claim C7 counterexample: the STM output filename is built with
`basename.replace(".fasta", ...)` (line 79), so an input not ending in
`.fasta`, such as `data.fa`, keeps its name unchanged instead of following
the `<input-basename>_pred_stm.csv` pattern. -/
theorem stm_outfile_pattern_violated :
    stmOutfile "data.fa" = "data.fa"
    ∧ stmOutfile "data.fa" ≠ pyStem (pyBasename "data.fa") ++ "_pred_stm.csv" := by
  refine ⟨by decide, by decide⟩

/-- Claim C9 counterexample: with empty strain, a skipped chunk and a chunk
returning a different number of rows than it submitted can compensate: here
chunk 1 submits two records but returns three rows and chunk 2 (one record)
fails, so the concatenated result has exactly `len(names)` rows and the
identifier assignment succeeds — the run writes output instead of raising. -/
theorem compensating_mismatch_not_raised :
    predictDbaasp
        (fun s => if s = ">0\nAA\n>1\nBB\n" then ⟨200, some [["c1"], ["x"], ["y"], ["z"]]⟩
                  else ⟨500, some [["c1"]]⟩)
        [⟨"a", "AA"⟩, ⟨"b", "BB"⟩, ⟨"c", "CC"⟩] "" "in.fasta" 12
      = Except.ok ("in_pred_dbaasp_general.csv", ⟨["id"], [["a"], ["b"], ["c"]]⟩) := by
  decide

set_option maxRecDepth 4000 in
/-- Claim C10: the CAMPR3 request encoding is not a function of the payload
and configuration alone — two different values of the 16-character random
boundary sample (line 120) give different boundaries and different encoded
request bodies for the same payload and sub-algorithm.  (The other adapters'
request bodies are built from payload and parameters only; their embeddings
take no randomness input.) -/
theorem campr3_encoding_nondeterministic (payload algo : String) (r r' : List Char)
    (h1 : validBoundarySample r) (h2 : validBoundarySample r') (hne : r ≠ r') :
    campr3Boundary r ≠ campr3Boundary r'
    ∧ campr3RequestBody payload algo r ≠ campr3RequestBody payload algo r' := by
  constructor
  · intro h
    apply hne
    have hd := congrArg String.data h
    simp only [campr3Boundary, String.data_append] at hd
    exact List.append_cancel_left hd
  · intro h
    apply hne
    have hd := congrArg String.data h
    simp only [campr3RequestBody, multipartBody, campr3RequestFields, campr3Boundary,
      List.map_cons, List.map_nil, String.join, List.foldl_cons, List.foldl_nil,
      String.data_append, List.append_assoc] at hd
    have hcancel :=
      List.append_cancel_left (List.append_cancel_left (List.append_cancel_left hd))
    exact (List.append_inj hcancel (h1.1.trans h2.1.symm)).1

/-- Witness for C10 at two concrete boundary samples. -/
theorem campr3_encoding_nondeterministic_witness :
    validBoundarySample "ABCDEFGHIJKLMNOP".data
    ∧ validBoundarySample "ABCDEFGHIJKLMNOQ".data
    ∧ campr3RequestBody "SEQUENCE" "svm" "ABCDEFGHIJKLMNOP".data
        ≠ campr3RequestBody "SEQUENCE" "svm" "ABCDEFGHIJKLMNOQ".data :=
  ⟨by decide, by decide,
   (campr3_encoding_nondeterministic "SEQUENCE" "svm" "ABCDEFGHIJKLMNOP".data
      "ABCDEFGHIJKLMNOQ".data (by decide) (by decide) (by decide)).2⟩

/-- Claim C6: the local model predictor returns exactly one row per input
record, containing the identifier, a class label that is positive exactly
when the model probability meets the threshold (with the warning marker
appended), the rounded probability, and the sequence; encoded inputs are
padded/truncated to the configured maximum length and over-long sequences
get the warning marker while still producing exactly one row. -/
theorem ampscanner_row_contract (model : List Nat → ℚ) (threshold : ℚ) (maxLen : Nat)
    (records : List FastaRecord) :
    (getAmpscannerPredictions model threshold maxLen records).header
        = ["SeqID", "Prediction_Class", "Prediction_Probability", "Sequence"]
    ∧ (getAmpscannerPredictions model threshold maxLen records).rows.length = records.length
    ∧ (∀ i, (hi : i < records.length) →
        (getAmpscannerPredictions model threshold maxLen records).rows[i]? = some
          [(records.get ⟨i, hi⟩).id,
           (if threshold ≤ model (padSeq maxLen (encodeSeq maxLen (records.get ⟨i, hi⟩).seq))
            then "AMP" else "Non-AMP") ++ ampWarn maxLen (records.get ⟨i, hi⟩),
           toString (round4 (model (padSeq maxLen (encodeSeq maxLen (records.get ⟨i, hi⟩).seq)))),
           (records.get ⟨i, hi⟩).seq])
    ∧ (∀ r : FastaRecord, (padSeq maxLen (encodeSeq maxLen r.seq)).length = maxLen
        ∧ (maxLen < r.seq.length → ampWarn maxLen r = "*")) := by
  refine ⟨rfl, ?_, ?_, ?_⟩
  · simp [getAmpscannerPredictions, setupAmpscanner]
  · intro i hi
    simp only [getAmpscannerPredictions, setupAmpscanner]
    rw [List.getElem?_map, List.getElem?_range (by simpa using hi)]
    simp only [Option.map_some']
    congr 1
    simp only [List.map_map, List.getD_eq_getElem?_getD, List.getElem?_map,
      List.getElem?_eq_getElem hi, Option.map_some', Option.getD_some,
      Function.comp, List.get_eq_getElem]
  · intro r
    constructor
    · simp only [padSeq, List.length_append, List.length_replicate, encodeSeq,
        List.length_map, List.length_take]
      omega
    · intro hlt
      simp [ampWarn, hlt]

/-- Witness for C6: a sequence of length 5 with maximum length 3 is
truncated, gets the warning marker, and yields exactly one row. -/
theorem ampscanner_row_contract_witness :
    (getAmpscannerPredictions (fun _ => (3 : ℚ)/4) (1/2) 3 [⟨"s1", "AAAAA"⟩]).rows.length = 1
    ∧ (getAmpscannerPredictions (fun _ => (3 : ℚ)/4) (1/2) 3 [⟨"s1", "AAAAA"⟩]).rows[0]?
        = some ["s1", "AMP*", toString (round4 ((3 : ℚ)/4)), "AAAAA"] := by
  have h := ampscanner_row_contract (fun _ => (3 : ℚ)/4) (1/2) 3 [⟨"s1", "AAAAA"⟩]
  refine ⟨h.2.1, ?_⟩
  rw [h.2.2.1 0 (by decide)]
  have hif : ((1 : ℚ)/2 ≤ 3/4) := by norm_num
  simp only [if_pos hif]
  show some ["s1", "AMP" ++ ampWarn 3 ⟨"s1", "AAAAA"⟩,
      toString (round4 ((3 : ℚ)/4)), "AAAAA"]
    = some ["s1", "AMP*", toString (round4 ((3 : ℚ)/4)), "AAAAA"]
  have hw : ampWarn 3 ⟨"s1", "AAAAA"⟩ = "*" := by decide
  rw [hw]
  rfl

lemma string_append_left_cancel (s a b : String) (h : s ++ a = s ++ b) : a = b := by
  have hd := congrArg String.data h
  simp only [String.data_append] at hd
  have hc := List.append_cancel_left hd
  cases a; cases b
  exact congrArg String.mk hc

lemma campr3Step_eq (serve : String → HtmlResponse) (d : List (String × Option Df))
    (a : String) (hwf : (serve a).status = 200 → 3 < (serve a).tables.length) :
    campr3Step serve d a
      = Except.ok (dictInsert d ("campr3_" ++ a) (campr3Entry serve a).2) := by
  unfold campr3Step campr3Entry
  by_cases hs : (serve a).status == 200
  · have hlt : 3 < (serve a).tables.length := hwf (by simpa using hs)
    rw [if_pos hs, if_pos hs, List.getElem?_eq_getElem hlt]
    rfl
  · rw [if_neg hs, if_neg hs]
    rfl

lemma campr3_loop (serve : String → HtmlResponse) :
    ∀ (algos : List String) (d : List (String × Option Df)),
      algos.Nodup →
      (∀ a ∈ algos, (serve a).status = 200 → 3 < (serve a).tables.length) →
      (∀ a ∈ algos, d.any (fun p => p.1 == "campr3_" ++ a) = false) →
      foldlMExcept (campr3Step serve) d algos
        = Except.ok (d ++ algos.map (campr3Entry serve)) := by
  intro algos
  induction algos with
  | nil => intro d _ _ _; simp [foldlMExcept]
  | cons a algos ih =>
    intro d hnodup hwf hfresh
    have hins : dictInsert d ("campr3_" ++ a) (campr3Entry serve a).2
        = d ++ [campr3Entry serve a] := by
      unfold dictInsert
      rw [if_neg]
      · rfl
      · simp only [hfresh a (by simp), Bool.false_eq_true, not_false_eq_true]
    simp only [foldlMExcept]
    rw [campr3Step_eq serve d a (hwf a (by simp))]
    show foldlMExcept (campr3Step serve) (dictInsert d ("campr3_" ++ a) (campr3Entry serve a).2)
        algos = _
    rw [hins, ih (d ++ [campr3Entry serve a]) (List.nodup_cons.mp hnodup).2
          (fun b hb => hwf b (by simp [hb])) ?_]
    · simp
    · intro b hb
      simp only [List.any_append, Bool.or_eq_false_iff]
      refine ⟨hfresh b (by simp [hb]), ?_⟩
      simp only [List.any_cons, List.any_nil, Bool.or_false]
      have hab : a ≠ b := by
        intro hcontra
        subst hcontra
        exact (List.nodup_cons.mp hnodup).1 hb
      have hkey : ("campr3_" ++ a) ≠ ("campr3_" ++ b) := by
        intro hk
        exact hab (string_append_left_cancel _ _ _ hk)
      simpa [campr3Entry] using fun hcontra => hkey (by rw [hcontra])

/-- Claim C8: one call of the CAMPR3 adapter produces, for each configured
sub-algorithm in order, exactly one result entry keyed `campr3_<algo>`,
holding the parsed and normalized fourth table on a success status and an
absent value on a non-success status. -/
theorem campr3_one_entry_per_algo (serve : String → HtmlResponse) (payload : String)
    (algos : List String) (hnodup : algos.Nodup)
    (hwf : ∀ a ∈ algos, (serve a).status = 200 → 3 < (serve a).tables.length) :
    getCampr3Predictions serve payload algos
      = Except.ok (algos.map (fun a => ("campr3_" ++ a,
          if (serve a).status == 200 then ((serve a).tables[3]?).map cleanCampr3Preds
          else none))) := by
  unfold getCampr3Predictions
  rw [campr3_loop serve algos [] hnodup hwf (fun a _ => rfl)]
  rfl

/-- Witness for C8: two sub-algorithms, one succeeding and one failing. -/
theorem campr3_one_entry_per_algo_witness :
    getCampr3Predictions
        (fun a => if a = "svm" then ⟨200, [⟨["x"], []⟩, ⟨["x"], []⟩, ⟨["x"], []⟩, ⟨["h"], [["v"]]⟩]⟩
                  else ⟨500, []⟩)
        "PAYLOAD" ["svm", "rf"]
      = Except.ok [("campr3_svm", some ⟨["h"], [["v"]]⟩), ("campr3_rf", none)] := by
  rw [campr3_one_entry_per_algo _ _ _ (by decide) (by decide)]
  decide

lemma mapMExcept_ok (f : α → Except String β) (g : α → β) :
    ∀ l : List α, (∀ a ∈ l, f a = Except.ok (g a)) →
      mapMExcept f l = Except.ok (l.map g) := by
  intro l
  induction l with
  | nil => intro _; rfl
  | cons a l ih =>
    intro h
    simp only [mapMExcept]
    rw [h a (by simp)]
    show (do
        let bs ← mapMExcept f l
        Except.ok (g a :: bs)) = _
    rw [ih (fun b hb => h b (by simp [hb]))]
    rfl

lemma getDbaasp_eq_chunkResult (resp : HttpResponse) (strain : String)
    (hparse : resp.jsonBody.isSome = true)
    (hwf : resp.status = 200 → wfTable resp = true) :
    getDbaaspPredictions resp strain = Except.ok (chunkResult resp strain) := by
  rcases hj : resp.jsonBody with _ | t
  · rw [hj] at hparse; simp at hparse
  · by_cases hs : resp.status == 200
    · have h200 : resp.status = 200 := by simpa using hs
      have hwft := hwf h200
      rcases t with _ | ⟨hdr, rest⟩
      · unfold wfTable at hwft
        rw [hj] at hwft
        simp at hwft
      · have hall : rest.all (fun r => r.length == hdr.length) = true := by
          unfold wfTable at hwft
          rw [hj] at hwft
          simpa using hwft
        unfold getDbaaspPredictions chunkResult dfFromTable
        rw [hj]
        simp [hs, hall]
    · unfold getDbaaspPredictions chunkResult
      rw [hj]
      simp [hs]

lemma filterMap_chunkResult (serve : String → HttpResponse) (strain : String) :
    ∀ chunks : List String,
      (∀ c ∈ chunks, ((serve c).jsonBody).isSome = true) →
      (∀ c ∈ chunks, (serve c).status = 200 → wfTable (serve c) = true) →
      (chunks.map (fun c => chunkResult (serve c) strain)).filterMap id
        = (chunks.filter (fun c => (serve c).status == 200)).map
            (fun c => cleanDbaaspPreds (respDf (serve c)) strain) := by
  intro chunks
  induction chunks with
  | nil => intro _ _; rfl
  | cons c chunks ih =>
    intro hparse hwf
    have ihr := ih (fun b hb => hparse b (by simp [hb])) (fun b hb => hwf b (by simp [hb]))
    by_cases hs : (serve c).status == 200
    · have h200 : (serve c).status = 200 := by simpa using hs
      have hwft := hwf c (by simp) h200
      unfold wfTable at hwft
      rcases hj : (serve c).jsonBody with _ | t
      · rw [hj] at hwft; simp at hwft
      · rcases t with _ | ⟨hdr, rest⟩
        · rw [hj] at hwft; simp at hwft
        · have hcr : chunkResult (serve c) strain
              = some (cleanDbaaspPreds (respDf (serve c)) strain) := by
            unfold chunkResult respDf respHeader respRows
            rw [hj]
            simp [hs]
          simp only [List.map_cons, List.filterMap_cons, List.filter_cons, hs, if_pos, hcr,
            id_eq, ihr]
    · have hcr : chunkResult (serve c) strain = none := by
        unfold chunkResult
        simp [hs]
      simp only [List.map_cons, List.filterMap_cons, List.filter_cons, hs, hcr, id_eq, ihr]
      simp

/-- Claim C3 (amended): provided the response body parses (JSON for DBAASP,
an HTML table for STM), a non-success status yields `None` for that chunk
rather than raising; the chunk loop then completes over all chunks, and the
filtering before concatenation keeps exactly the successful chunks'
normalized tables, in order, omitting only the failed chunks. -/
theorem nonsuccess_chunk_skipped (resp : HttpResponse) (sresp : StmResponse)
    (strain payload : String) (serve : String → HttpResponse)
    (records : List FastaRecord) (chunkSize : Nat)
    (hparse1 : resp.jsonBody.isSome = true) (hfail1 : resp.status ≠ 200)
    (hparse2 : sresp.table0.isSome = true) (hfail2 : sresp.status ≠ 200)
    (hparse : ∀ c ∈ dbaaspChunks records strain chunkSize, ((serve c).jsonBody).isSome = true)
    (hwf : ∀ c ∈ dbaaspChunks records strain chunkSize,
        (serve c).status = 200 → wfTable (serve c) = true) :
    getDbaaspPredictions resp strain = Except.ok none
    ∧ getStmPredictions sresp payload = Except.ok none
    ∧ mapMExcept (fun c => getDbaaspPredictions (serve c) strain)
        (dbaaspChunks records strain chunkSize)
      = Except.ok ((dbaaspChunks records strain chunkSize).map
          (fun c => chunkResult (serve c) strain))
    ∧ ((dbaaspChunks records strain chunkSize).map
          (fun c => chunkResult (serve c) strain)).filterMap id
      = ((dbaaspChunks records strain chunkSize).filter
          (fun c => (serve c).status == 200)).map
          (fun c => cleanDbaaspPreds (respDf (serve c)) strain) := by
  refine ⟨?_, ?_, ?_, ?_⟩
  · rcases hj : resp.jsonBody with _ | t
    · rw [hj] at hparse1; simp at hparse1
    · unfold getDbaaspPredictions
      rw [hj]
      have hs : (resp.status == 200) = false := by simpa using hfail1
      simp [hs]
  · rcases hj : sresp.table0 with _ | t
    · rw [hj] at hparse2; simp at hparse2
    · unfold getStmPredictions
      rw [hj]
      have hs : (sresp.status == 200) = false := by simpa using hfail2
      simp [hs]
  · exact mapMExcept_ok _ _ _ (fun c hc => getDbaasp_eq_chunkResult (serve c) strain
      (hparse c hc) (hwf c hc))
  · exact filterMap_chunkResult serve strain _ hparse hwf

/-- Witness for C3 (amended). -/
theorem nonsuccess_chunk_skipped_witness :
    getDbaaspPredictions ⟨500, some [["h"]]⟩ "Escherichia coli ATCC 25922" = Except.ok none
    ∧ getStmPredictions ⟨500, some ⟨["h"], []⟩⟩ ">a\nAA\n" = Except.ok none :=
  ⟨(nonsuccess_chunk_skipped ⟨500, some [["h"]]⟩ ⟨500, some ⟨["h"], []⟩⟩
      "Escherichia coli ATCC 25922" ">a\nAA\n" (fun _ => ⟨500, some [["h"]]⟩)
      [⟨"a", "AA"⟩] 100 (by decide) (by decide) (by decide) (by decide)
      (by decide) (by decide)).1,
   (nonsuccess_chunk_skipped ⟨500, some [["h"]]⟩ ⟨500, some ⟨["h"], []⟩⟩
      "Escherichia coli ATCC 25922" ">a\nAA\n" (fun _ => ⟨500, some [["h"]]⟩)
      [⟨"a", "AA"⟩] 100 (by decide) (by decide) (by decide) (by decide)
      (by decide) (by decide)).2.1⟩

lemma exbind_ok (x : α) (f : α → Except String β) :
    ((Except.ok x : Except String α) >>= f) = f x := rfl

lemma exbind_err (e : String) (f : α → Except String β) :
    ((Except.error e : Except String α) >>= f) = Except.error e := rfl

lemma isOk_bind_map (e : Except String α) (g : α → β) :
    (e >>= (fun x => Except.ok (g x))).isOk = e.isOk := by
  cases e <;> rfl

lemma cleanRows_len (resp : HttpResponse) (strain : String) :
    (cleanDbaaspPreds (respDf resp) strain).rows.length = respRowCount resp := by
  unfold cleanDbaaspPreds respDf respRows respRowCount
  rcases hj : resp.jsonBody with _ | t
  · rfl
  · rcases t with _ | ⟨hdr, rest⟩ <;> rfl

lemma successRows_sum (serve : String → HttpResponse) (strain : String) :
    ∀ chunks : List String,
      ((((chunks.filter (fun c => (serve c).status == 200)).map
          (fun c => cleanDbaaspPreds (respDf (serve c)) strain)).map Df.rows).flatten).length
        = (chunks.map (fun c => if (serve c).status == 200 then respRowCount (serve c)
            else 0)).sum := by
  intro chunks
  induction chunks with
  | nil => rfl
  | cons c chunks ih =>
    by_cases hs : (serve c).status == 200
    · simp only [List.filter_cons, hs, if_pos, List.map_cons, List.flatten_cons,
        List.length_append, ih, List.sum_cons, cleanRows_len]
    · have hs' : ((serve c).status == 200) = false := by simpa using hs
      simp only [List.filter_cons, hs', Bool.false_eq_true, if_false, ih, List.map_cons,
        List.sum_cons, Nat.zero_add]

lemma isOk_err (e : String) : (Except.error e : Except String α).isOk = false := rfl

lemma isOk_okk (x : α) : (Except.ok x : Except String α).isOk = true := rfl

lemma dfSetColumn_ok_iff (df : Df) (vals : List String) :
    (dfSetColumn df "id" vals).isOk = true ↔ vals.length = df.rows.length := by
  unfold dfSetColumn
  by_cases h : vals.length ≠ df.rows.length
  · rw [if_pos h]
    simp only [isOk_err, Bool.false_eq_true, false_iff]
    exact h
  · rw [if_neg h]
    push_neg at h
    by_cases hc : df.header.contains "id"
    · rw [if_pos hc, isOk_okk]
      simp [h]
    · rw [if_neg hc, isOk_okk]
      simp [h]

lemma predictDbaasp_empty_strain (serve : String → HttpResponse)
    (records : List FastaRecord) (inputPath : String) (chunkSize : Nat)
    (hparse : ∀ c ∈ dbaaspChunks records "" chunkSize, ((serve c).jsonBody).isSome = true)
    (hwf : ∀ c ∈ dbaaspChunks records "" chunkSize,
        (serve c).status = 200 → wfTable (serve c) = true) :
    predictDbaasp serve records "" inputPath chunkSize
      = (pdConcat (((dbaaspChunks records "" chunkSize).filter
            (fun c => (serve c).status == 200)).map
            (fun c => cleanDbaaspPreds (respDf (serve c)) "")) >>= fun result =>
          dfSetColumn result "id" (records.map FastaRecord.id) >>= fun result2 =>
          Except.ok (dbaaspOutfile inputPath "", result2)) := by
  have hmap := mapMExcept_ok (fun c => getDbaaspPredictions (serve c) "")
      (fun c => chunkResult (serve c) "") (dbaaspChunks records "" chunkSize)
      (fun c hc => getDbaasp_eq_chunkResult (serve c) "" (hparse c hc) (hwf c hc))
  have hfm := filterMap_chunkResult serve "" (dbaaspChunks records "" chunkSize) hparse hwf
  unfold predictDbaasp
  rw [hmap, exbind_ok, hfm]
  rfl

lemma exists_error_of_not_isOk (e : Except String α) (h : e.isOk = false) :
    ∃ msg, e = Except.error msg := by
  cases e with
  | error msg => exact ⟨msg, rfl⟩
  | ok x => simp [isOk_okk] at h

/-- Claim C9 (amended): with empty strain, `predict_dbaasp` re-attaches the
saved identifiers by assigning the full list to the concatenated result;
for parseable, well-formed responses and non-empty input the run succeeds
exactly when the total number of concatenated rows equals the number of
input records, and any total mismatch — a skipped chunk or a row-count
deviation that is not compensated elsewhere — makes the run raise instead
of writing output.  (Compensating mismatches across chunks can cancel and
slip through, see the counterexample.) -/
theorem dbaasp_restore_length_guard (serve : String → HttpResponse)
    (records : List FastaRecord) (inputPath : String) (chunkSize : Nat)
    (hparse : ∀ c ∈ dbaaspChunks records "" chunkSize, ((serve c).jsonBody).isSome = true)
    (hwf : ∀ c ∈ dbaaspChunks records "" chunkSize,
        (serve c).status = 200 → wfTable (serve c) = true)
    (hne : records ≠ []) :
    ((predictDbaasp serve records "" inputPath chunkSize).isOk = true
      ↔ dbaaspTotalRows serve records chunkSize = records.length)
    ∧ (dbaaspTotalRows serve records chunkSize ≠ records.length →
        ∃ msg, predictDbaasp serve records "" inputPath chunkSize = Except.error msg) := by
  have hE := predictDbaasp_empty_strain serve records inputPath chunkSize hparse hwf
  have hsum := successRows_sum serve "" (dbaaspChunks records "" chunkSize)
  have hkey : (predictDbaasp serve records "" inputPath chunkSize).isOk = true
      ↔ dbaaspTotalRows serve records chunkSize = records.length := by
    rw [hE]
    rcases hdfs : ((dbaaspChunks records "" chunkSize).filter
        (fun c => (serve c).status == 200)).map
        (fun c => cleanDbaaspPreds (respDf (serve c)) "") with _ | ⟨d, ds⟩
    · have htot : dbaaspTotalRows serve records chunkSize = 0 := by
        unfold dbaaspTotalRows
        rw [← hsum, hdfs]
        rfl
      rw [htot]
      have hlen : records.length ≠ 0 := by
        intro hzero
        exact hne (List.length_eq_zero.mp hzero)
      rw [show pdConcat ([] : List Df) = Except.error "No objects to concatenate" from rfl]
      simp only [exbind_err, isOk_err, Bool.false_eq_true, false_iff]
      omega
    · rw [show pdConcat (d :: ds) = Except.ok ⟨d.header, d.rows ++ (ds.map Df.rows).flatten⟩
        from rfl]
      rw [exbind_ok, isOk_bind_map, dfSetColumn_ok_iff]
      have hrows : (Df.mk d.header (d.rows ++ (ds.map Df.rows).flatten)).rows.length
          = dbaaspTotalRows serve records chunkSize := by
        unfold dbaaspTotalRows
        rw [← hsum, hdfs]
        simp
      rw [hrows, List.length_map]
      constructor
      · intro h; exact h.symm
      · intro h; exact h.symm
  refine ⟨hkey, fun hneq => ?_⟩
  refine exists_error_of_not_isOk _ ?_
  rcases hb : (predictDbaasp serve records "" inputPath chunkSize).isOk with _ | _
  · rfl
  · exact absurd (hkey.mp hb) hneq

lemma set_get_col (j : Nat) : ∀ (rows : List (List String)) (vals : List String),
    rows.length = vals.length → (∀ r ∈ rows, j < r.length) →
    ((rows.zip vals).map (fun p => p.1.set j p.2)).map (fun r => r.getD j "") = vals := by
  intro rows
  induction rows with
  | nil =>
    intro vals h _
    cases vals with
    | nil => rfl
    | cons v vals => simp at h
  | cons r rows ih =>
    intro vals h hP
    cases vals with
    | nil => simp at h
    | cons v vals =>
      simp only [List.zip_cons_cons, List.map_cons]
      congr 1
      · have hj : j < r.length := hP r (by simp)
        rw [List.getD_eq_getElem?_getD, List.getElem?_set_eq hj]
        rfl
      · exact ih vals (by simpa using h) (fun q hq => hP q (by simp [hq]))

lemma append_get_col (w : Nat) : ∀ (rows : List (List String)) (vals : List String),
    rows.length = vals.length → (∀ r ∈ rows, r.length = w) →
    ((rows.zip vals).map (fun p => p.1 ++ [p.2])).map (fun r => r.getD w "") = vals := by
  intro rows
  induction rows with
  | nil =>
    intro vals h _
    cases vals with
    | nil => rfl
    | cons v vals => simp at h
  | cons r rows ih =>
    intro vals h hP
    cases vals with
    | nil => simp at h
    | cons v vals =>
      simp only [List.zip_cons_cons, List.map_cons]
      congr 1
      · have hw : r.length = w := hP r (by simp)
        rw [List.getD_eq_getElem?_getD, List.getElem?_append_right (by omega : r.length ≤ w)]
        rw [hw]
        simp
      · exact ih vals (by simpa using h) (fun q hq => hP q (by simp [hq]))

lemma findIdx_append_all_false (p : String → Bool) :
    ∀ (h : List String), (∀ x ∈ h, p x = false) → ∀ t,
      (h ++ t).findIdx p = h.length + t.findIdx p := by
  intro h
  induction h with
  | nil => intro _ t; simp
  | cons a h ih =>
    intro hall t
    have ha : p a = false := hall a (by simp)
    simp only [List.cons_append, List.findIdx_cons, ha, cond_false, List.length_cons]
    rw [ih (fun x hx => hall x (by simp [hx])) t]
    omega

lemma findIdx_lt_of_mem (h : List String) (name : String) (hm : name ∈ h) :
    h.findIdx (fun x => x == name) < h.length := by
  induction h with
  | nil => simp at hm
  | cons a h ih =>
    by_cases ha : (a == name) = true
    · simp [List.findIdx_cons, ha]
    · have : name ∈ h := by
        rcases List.mem_cons.mp hm with hcontra | hmem
        · exact absurd (by simp [hcontra]) ha
        · exact hmem
      simp only [List.findIdx_cons, ha, cond_false, List.length_cons]
      have := ih this
      omega

lemma findIdx_getElem_self (h : List String) (name : String) (hm : name ∈ h) :
    h.findIdx (fun x => x == name) < h.length := findIdx_lt_of_mem h name hm

/-- Setting the `id` column and reading it back returns the assigned values
when the frame is rectangular and the value count matches. -/
lemma dfSetColumn_get (df : Df) (vals : List String)
    (huni : ∀ r ∈ df.rows, r.length = df.header.length)
    (hlen : vals.length = df.rows.length) :
    ∃ df', dfSetColumn df "id" vals = Except.ok df'
      ∧ dfGetColumn df' "id" = vals := by
  unfold dfSetColumn
  rw [if_neg (by omega : ¬ vals.length ≠ df.rows.length)]
  by_cases hc : df.header.contains "id"
  · rw [if_pos hc]
    refine ⟨_, rfl, ?_⟩
    unfold dfGetColumn
    have hm : "id" ∈ df.header := List.mem_of_elem_eq_true hc
    have hj : df.header.findIdx (fun x => x == "id") < df.header.length :=
      findIdx_lt_of_mem _ _ hm
    simp only [List.map_map]
    rw [show (List.map ((fun r => r.getD (df.header.findIdx (fun x => x == "id")) "")
        ∘ (fun p => p.1.set (df.header.findIdx (fun x => x == "id")) p.2))
        (df.rows.zip vals))
      = ((df.rows.zip vals).map
          (fun p => p.1.set (df.header.findIdx (fun x => x == "id")) p.2)).map
          (fun r => r.getD (df.header.findIdx (fun x => x == "id")) "") by
        rw [List.map_map]]
    exact set_get_col _ df.rows vals hlen.symm
      (fun r hr => by rw [huni r hr]; exact hj)
  · rw [if_neg hc]
    refine ⟨_, rfl, ?_⟩
    unfold dfGetColumn
    have hall : ∀ x ∈ df.header, (x == "id") = false := by
      intro x hx
      by_contra hcontra
      have hx' : (x == "id") = true := by
        cases hb : (x == "id") with
        | false => exact absurd hb hcontra
        | true => rfl
      have hxid : x = "id" := by simpa using hx'
      have : df.header.contains "id" = true := List.elem_eq_true_of_mem (hxid ▸ hx)
      exact absurd this (by simpa using hc)
    have hidx : (df.header ++ ["id"]).findIdx (fun x => x == "id") = df.header.length := by
      rw [findIdx_append_all_false _ df.header hall ["id"]]
      simp [List.findIdx_cons]
    simp only [hidx, List.map_map]
    rw [show (List.map ((fun r => r.getD df.header.length "") ∘ (fun p => p.1 ++ [p.2]))
        (df.rows.zip vals))
      = ((df.rows.zip vals).map (fun p => p.1 ++ [p.2])).map
          (fun r => r.getD df.header.length "") by
        rw [List.map_map]]
    exact append_get_col _ df.rows vals hlen.symm huni

lemma chunksAux_ne_nil (limit : Nat) :
    ∀ (rs : List String) (cur : List String) (s : Nat), chunksAux limit cur s rs ≠ [] := by
  intro rs
  induction rs with
  | nil => intro cur s; simp [chunksAux]
  | cons r rs ih =>
    intro cur s
    by_cases h : s + r.length ≤ limit
    · simp only [chunksAux, if_pos h]
      exact ih (cur ++ [r]) (s + r.length)
    · simp [chunksAux, if_neg h]

lemma splitIntoChunks_ne_nil (rs : List String) (limit : Nat) (h : rs ≠ []) :
    splitIntoChunks rs limit ≠ [] := by
  cases rs with
  | nil => exact absurd rfl h
  | cons r rs =>
    simp only [splitIntoChunks]
    exact chunksAux_ne_nil limit rs [r] r.length

lemma dbaaspChunks_ne_nil (records : List FastaRecord) (cs : Nat) (h : records ≠ []) :
    dbaaspChunks records "" cs ≠ [] := by
  unfold dbaaspChunks
  have hre : (if ("" : String).isEmpty then reindex records else records) = reindex records := rfl
  rw [hre]
  have hne2 : (reindex records).map formatFasta ≠ [] := by
    cases records with
    | nil => exact absurd rfl h
    | cons a l => simp [reindex]
  intro hcontra
  exact splitIntoChunks_ne_nil _ cs hne2 (by simpa using hcontra)

lemma respRows_uniform (resp : HttpResponse) (hw : wfTable resp = true) :
    ∀ r ∈ respRows resp, r.length = (respHeader resp).length := by
  unfold wfTable at hw
  unfold respRows respHeader
  rcases hj : resp.jsonBody with _ | t
  · rw [hj] at hw; simp at hw
  · rcases t with _ | ⟨h0, rest⟩
    · rw [hj] at hw; simp at hw
    · rw [hj] at hw
      have hw' : ∀ x ∈ rest, x.length = h0.length := by simpa using hw
      intro r hr
      exact hw' r hr

lemma dbaaspCanonicalHeader_length (h : List String) :
    (dbaaspCanonicalHeader h).length = h.length := by
  cases h <;> rfl

lemma replaceCharsGo_single (c d : Char) :
    ∀ (l : List Char) (fuel : Nat), l.length ≤ fuel →
      replaceCharsGo [c] [d] fuel l = l.map (fun x => if x = c then d else x) := by
  intro l
  induction l with
  | nil => intro fuel _; cases fuel <;> rfl
  | cons x xs ih =>
    intro fuel hf
    cases fuel with
    | zero => simp at hf
    | succ f =>
      simp only [replaceCharsGo]
      by_cases hx : x = c
      · subst hx
        rw [if_pos (by simp [List.isPrefixOf])]
        simp only [List.length_cons, List.length_nil, Nat.zero_add, List.drop_succ_cons,
          List.drop_zero]
        rw [ih f (by simpa using hf)]
        simp
      · rw [if_neg]
        · rw [ih f (by simp at hf; omega)]
          simp [hx]
        · intro hcontra
          simp [List.isPrefixOf] at hcontra
          exact hx hcontra.symm

lemma map_space_underscore_eq (t : List Char) (ht : '_' ∉ t) :
    ∀ l : List Char, l.map (fun x => if x = ' ' then '_' else x) = t → l = t := by
  induction t with
  | nil =>
    intro l h
    cases l with
    | nil => rfl
    | cons x xs => simp at h
  | cons y ys ih =>
    intro l h
    cases l with
    | nil => simp at h
    | cons x xs =>
      simp only [List.map_cons, List.cons.injEq] at h
      obtain ⟨h1, h2⟩ := h
      have hy : y ≠ '_' := by
        intro hc
        exact ht (by simp [hc])
      have hx : x ≠ ' ' := by
        intro hc
        rw [if_pos hc] at h1
        exact hy h1.symm
      rw [if_neg hx] at h1
      have := ih (fun hc => ht (by simp [hc])) xs h2
      rw [h1, this]

lemma strReplace_space_underscore_general (s : String) (h : strReplace s " " "_" = "general") :
    s = "general" := by
  have hd := congrArg String.data h
  unfold strReplace replaceChars at hd
  rw [replaceCharsGo_single ' ' '_' s.data s.data.length (le_refl _)] at hd
  have := map_space_underscore_eq "general".data (by decide) s.data hd
  cases s
  exact congrArg String.mk this

lemma pdConcat_cons (d : Df) (ds : List Df) :
    pdConcat (d :: ds) = Except.ok ⟨d.header, d.rows ++ (ds.map Df.rows).flatten⟩ := rfl

/-- Claim C4 (amended): with an empty strain parameter the identifiers are
replaced by the positional indices 0,1,2,... before submission and the
saved originals are re-attached after normalization, so the written `id`
column equals the input identifiers in order (provided every chunk succeeds
with a shared header and one row per record in total); with a non-empty
strain parameter other than the literal string `"general"` no substitution
or restoration occurs — supplying exactly `"general"` instead crashes, see
the counterexample. -/
theorem dbaasp_id_restoration (serve : String → HttpResponse) (records : List FastaRecord)
    (inputPath : String) (chunkSize : Nat) (hdr : List String)
    (hok : ∀ c ∈ dbaaspChunks records "" chunkSize, (serve c).status = 200)
    (hparse : ∀ c ∈ dbaaspChunks records "" chunkSize, ((serve c).jsonBody).isSome = true)
    (hwf : ∀ c ∈ dbaaspChunks records "" chunkSize,
        (serve c).status = 200 → wfTable (serve c) = true)
    (hhdr : ∀ c ∈ dbaaspChunks records "" chunkSize, respHeader (serve c) = hdr)
    (htot : dbaaspTotalRows serve records chunkSize = records.length)
    (hne : records ≠ []) :
    ((reindex records).map FastaRecord.id
        = (List.range records.length).map (fun i => toString i))
    ∧ dbaaspChunks records "" chunkSize
        = (splitIntoChunks ((reindex records).map formatFasta) chunkSize).map String.join
    ∧ (∃ df, predictDbaasp serve records "" inputPath chunkSize
          = Except.ok (dbaaspOutfile inputPath "", df)
        ∧ dfGetColumn df "id" = records.map FastaRecord.id)
    ∧ (∀ s : String, s.isEmpty = false → s ≠ "general" →
        dbaaspChunks records s chunkSize
            = (splitIntoChunks (records.map formatFasta) chunkSize).map String.join
        ∧ predictDbaasp serve records s inputPath chunkSize
            = (mapMExcept (fun c => getDbaaspPredictions (serve c) s)
                (dbaaspChunks records s chunkSize) >>= fun partials =>
               pdConcat (partials.filterMap id) >>= fun result =>
               Except.ok (dbaaspOutfile inputPath s, result))) := by
  refine ⟨?_, rfl, ?_, ?_⟩
  · unfold reindex
    rw [List.map_map, List.enum_eq_zip_range]
    rw [show (FastaRecord.id ∘ fun p : Nat × FastaRecord => { p.2 with id := toString p.1 })
        = (toString ∘ Prod.fst) from rfl]
    rw [← List.map_map, List.map_fst_zip _ _ (by simp)]
  · have hfilter : (dbaaspChunks records "" chunkSize).filter
        (fun c => (serve c).status == 200) = dbaaspChunks records "" chunkSize :=
      List.filter_eq_self.mpr (fun c hc => by simp [hok c hc])
    have hE := predictDbaasp_empty_strain serve records inputPath chunkSize hparse hwf
    rw [hfilter] at hE
    have hsum := successRows_sum serve "" (dbaaspChunks records "" chunkSize)
    rw [hfilter] at hsum
    unfold dbaaspTotalRows at htot
    rcases hch : dbaaspChunks records "" chunkSize with _ | ⟨c0, crest⟩
    · exact absurd hch (dbaaspChunks_ne_nil records chunkSize hne)
    · rw [hch] at hE hsum htot hok hparse hwf hhdr
      simp only [List.map_cons] at hE
      rw [pdConcat_cons, exbind_ok] at hE
      have hrowmem : ∀ r ∈ (cleanDbaaspPreds (respDf (serve c0)) "").rows
            ++ ((crest.map (fun c => cleanDbaaspPreds (respDf (serve c)) "")).map
                Df.rows).flatten,
          r.length = hdr.length := by
        intro r hr
        rcases List.mem_append.mp hr with hr0 | hrf
        · have := respRows_uniform (serve c0) (hwf c0 (by simp) (hok c0 (by simp))) r hr0
          rw [hhdr c0 (by simp)] at this
          exact this
        · rcases List.mem_flatten.mp hrf with ⟨rows, hrows, hrmem⟩
          rcases List.mem_map.mp hrows with ⟨df, hdfmem, hdfrows⟩
          rcases List.mem_map.mp hdfmem with ⟨c, hcmem, hcdf⟩
          have hcm : c ∈ c0 :: crest := by simp [hcmem]
          have := respRows_uniform (serve c) (hwf c hcm (hok c hcm)) r
            (by rw [← hcdf] at hdfrows; rw [← hdfrows] at hrmem; exact hrmem)
          rw [hhdr c hcm] at this
          exact this
      have hhd0 : (cleanDbaaspPreds (respDf (serve c0)) "").header
          = dbaaspCanonicalHeader hdr := by
        unfold cleanDbaaspPreds
        rw [show (respDf (serve c0)).header = respHeader (serve c0) from rfl,
          hhdr c0 (by simp)]
      have huni : ∀ r ∈ (cleanDbaaspPreds (respDf (serve c0)) "").rows
            ++ ((crest.map (fun c => cleanDbaaspPreds (respDf (serve c)) "")).map
                Df.rows).flatten,
          r.length = (cleanDbaaspPreds (respDf (serve c0)) "").header.length := by
        intro r hr
        rw [hhd0, dbaaspCanonicalHeader_length]
        exact hrowmem r hr
      have hlen : (records.map FastaRecord.id).length
          = ((cleanDbaaspPreds (respDf (serve c0)) "").rows
              ++ ((crest.map (fun c => cleanDbaaspPreds (respDf (serve c)) "")).map
                  Df.rows).flatten).length := by
        rw [List.length_map]
        rw [← htot]
        rw [← hsum]
        simp
      obtain ⟨df', hset, hget⟩ := dfSetColumn_get
        ⟨(cleanDbaaspPreds (respDf (serve c0)) "").header,
          (cleanDbaaspPreds (respDf (serve c0)) "").rows
            ++ ((crest.map (fun c => cleanDbaaspPreds (respDf (serve c)) "")).map
                Df.rows).flatten⟩
        (records.map FastaRecord.id) huni hlen
      rw [hset, exbind_ok] at hE
      exact ⟨df', hE, hget⟩
  · intro s hsE hsG
    have hgen : ((strReplace s " " "_") == "general") = false := by
      by_contra hc
      have hb : (strReplace s " " "_" == "general") = true := by
        cases hbb : (strReplace s " " "_" == "general") with
        | false => exact absurd hbb hc
        | true => rfl
      exact hsG (strReplace_space_underscore_general s (by simpa using hb))
    constructor
    · unfold dbaaspChunks
      simp only [hsE, Bool.false_eq_true, if_false]
    · unfold predictDbaasp
      simp only [hsE, Bool.false_eq_true, if_false, hgen]
      rfl

/-- Witness for C9 (amended) at a concrete run with matching counts. -/
theorem dbaasp_restore_length_guard_witness :
    ((predictDbaasp (fun _ => ⟨200, some [["c1"], ["x"]]⟩) [⟨"a", "AA"⟩] "" "in.fasta" 100).isOk
        = true
      ↔ dbaaspTotalRows (fun _ => ⟨200, some [["c1"], ["x"]]⟩) [⟨"a", "AA"⟩] 100 = 1) :=
  (dbaasp_restore_length_guard (fun _ => ⟨200, some [["c1"], ["x"]]⟩) [⟨"a", "AA"⟩]
    "in.fasta" 100 (by decide) (by decide) (by decide)).1

/-- Witness for C4 (amended): two records, one chunk, identifiers restored. -/
theorem dbaasp_id_restoration_witness :
    ∃ df, predictDbaasp (fun _ => ⟨200, some [["c1"], ["x"], ["y"]]⟩)
        [⟨"a", "AA"⟩, ⟨"b", "BB"⟩] "" "in.fasta" 12
      = Except.ok (dbaaspOutfile "in.fasta" "", df)
    ∧ dfGetColumn df "id" = ["a", "b"] :=
  (dbaasp_id_restoration (fun _ => ⟨200, some [["c1"], ["x"], ["y"]]⟩)
    [⟨"a", "AA"⟩, ⟨"b", "BB"⟩] "in.fasta" 12 ["c1"]
    (by decide) (by decide) (by decide) (by decide) (by decide) (by decide)).2.2.1

lemma replaceCharsGo_stem (pat rep : List Char) (hp : pat ≠ []) :
    ∀ (stem : List Char) (fuel : Nat), (stem ++ pat).length ≤ fuel →
      (∀ t ∈ stem.tails, t ≠ [] → pat.isPrefixOf (t ++ pat) = false) →
      replaceCharsGo pat rep fuel (stem ++ pat) = stem ++ rep := by
  intro stem
  induction stem with
  | nil =>
    intro fuel hf _
    rcases pat with _ | ⟨p0, ps⟩
    · exact absurd rfl hp
    · cases fuel with
      | zero => simp at hf
      | succ f =>
        simp only [List.nil_append, replaceCharsGo]
        rw [if_pos (by simp [List.isPrefixOf_iff_prefix])]
        rw [show ((p0 :: ps).drop (p0 :: ps).length) = [] from List.drop_length _]
        cases f <;> simp [replaceCharsGo]
  | cons c stem ih =>
    intro fuel hf hocc
    cases fuel with
    | zero => simp at hf
    | succ f =>
      have hpre : pat.isPrefixOf ((c :: stem) ++ pat) = false :=
        hocc (c :: stem) (by simp [List.tails_cons]) (by simp)
      simp only [List.cons_append, replaceCharsGo]
      rw [if_neg (by rw [List.cons_append] at hpre; simp [hpre])]
      congr 1
      exact ih f (by simp at hf ⊢; omega)
        (fun t ht hne => hocc t (by simp [List.tails_cons, ht]) hne)

lemma replaceChars_stem (pat rep stem : List Char) (hp : pat ≠ [])
    (hocc : ∀ t ∈ stem.tails, t ≠ [] → pat.isPrefixOf (t ++ pat) = false) :
    replaceChars pat rep (stem ++ pat) = stem ++ rep :=
  replaceCharsGo_stem pat rep hp stem (stem ++ pat).length (le_refl _) hocc

lemma pySplitextRoot_fasta (stem : List Char) (hnd : stem.any (fun c => c != '.') = true) :
    pySplitextRootChars (stem ++ ".fasta".data) = stem := by
  have hrev : (stem ++ ".fasta".data).reverse
      = 'a' :: 't' :: 's' :: 'a' :: 'f' :: '.' :: stem.reverse := by
    rw [List.reverse_append]
    rfl
  have htw : ((stem ++ ".fasta".data).reverse.takeWhile (fun c => c != '.'))
      = ['a', 't', 's', 'a', 'f'] := by
    rw [hrev]
    simp [List.takeWhile_cons]
  have hlen : (stem ++ ".fasta".data).length = stem.length + 6 := by
    simp [List.length_append]
  unfold pySplitextRootChars
  rw [htw, hlen]
  rw [if_neg (by simp)]
  rw [show stem.length + 6 - ['a', 't', 's', 'a', 'f'].length - 1 = stem.length by simp]
  show (if ((List.take stem.length (stem ++ ".fasta".data)).any fun c => c != '.') = true
      then List.take stem.length (stem ++ ".fasta".data) else stem ++ ".fasta".data) = stem
  rw [List.take_left stem ".fasta".data]
  rw [if_pos hnd]

/-- Claim C7 (amended): every output filename is a deterministic function of
the input basename, the service name and the parameter.  The splitext-based
paths (ampscanner, dbaasp) follow the
`<input-basename>_pred_<service>[_<param>].csv` pattern whenever the
basename is `<stem>.fasta`; the replace-based paths (stm, genome, campr3)
follow it exactly when additionally `.fasta` occurs in the basename only as
the final extension — an input like `data.fa` keeps its name unchanged on
those paths, see the counterexample. -/
theorem outfile_pattern_amended (p strain algo : String) (stem : List Char)
    (hb : (pyBasename p).data = stem ++ ".fasta".data)
    (hnd : stem.any (fun c => c != '.') = true)
    (hocc : ∀ t ∈ stem.tails, t ≠ [] →
        (".fasta".data).isPrefixOf (t ++ ".fasta".data) = false) :
    ampscannerOutfile p = String.mk stem ++ "_pred_ampscannerv2.csv"
    ∧ dbaaspOutfile p strain = String.mk stem ++ "_pred_dbaasp_"
        ++ (if strain.isEmpty then "general" else strReplace strain " " "_") ++ ".csv"
    ∧ stmOutfile p = String.mk stem ++ "_pred_stm.csv"
    ∧ dbaaspGenomeOutfile p strain = String.mk stem ++ "_pred_dbaasp_genome_"
        ++ strReplace strain " " "_" ++ ".csv"
    ∧ campr3Outfile p algo = String.mk stem ++ "_pred_" ++ algo ++ ".csv"
    ∧ (∀ q : String, pyBasename p = pyBasename q →
        ampscannerOutfile p = ampscannerOutfile q
        ∧ dbaaspOutfile p strain = dbaaspOutfile q strain
        ∧ stmOutfile p = stmOutfile q
        ∧ dbaaspGenomeOutfile p strain = dbaaspGenomeOutfile q strain
        ∧ campr3Outfile p algo = campr3Outfile q algo) := by
  have hfp : (".fasta".data : List Char) ≠ [] := by decide
  have hext : ∀ (a b : String), a.data = b.data → a = b := by
    intro a b h
    cases a; cases b
    exact congrArg String.mk h
  refine ⟨?_, ?_, ?_, ?_, ?_, ?_⟩
  · unfold ampscannerOutfile pyStem
    rw [hb, pySplitextRoot_fasta stem hnd]
  · unfold dbaaspOutfile pyStem
    rw [hb, pySplitextRoot_fasta stem hnd]
  · unfold stmOutfile strReplace
    rw [hb, replaceChars_stem ".fasta".data "_pred_stm.csv".data stem hfp hocc]
    rfl
  · unfold dbaaspGenomeOutfile strReplace
    rw [hb, replaceChars_stem ".fasta".data _ stem hfp hocc]
    apply hext
    simp [String.data_append, List.append_assoc]
  · unfold campr3Outfile strReplace
    rw [hb, replaceChars_stem ".fasta".data _ stem hfp hocc]
    apply hext
    simp [String.data_append, List.append_assoc]
  · intro q hq
    refine ⟨?_, ?_, ?_, ?_, ?_⟩
    · unfold ampscannerOutfile
      rw [hq]
    · unfold dbaaspOutfile
      rw [hq]
    · unfold stmOutfile
      rw [hq]
    · unfold dbaaspGenomeOutfile
      rw [hq]
    · unfold campr3Outfile
      rw [hq]

/-- Witness for C7 (amended) on a conforming `.fasta` input. -/
theorem outfile_pattern_amended_witness :
    stmOutfile "dir/data.fasta" = "data_pred_stm.csv"
    ∧ ampscannerOutfile "dir/data.fasta" = "data_pred_ampscannerv2.csv" :=
  ⟨(outfile_pattern_amended "dir/data.fasta" "Escherichia coli" "campr3_svm" "data".data
      (by decide) (by decide) (by decide)).2.2.1,
   (outfile_pattern_amended "dir/data.fasta" "Escherichia coli" "campr3_svm" "data".data
      (by decide) (by decide) (by decide)).1⟩
